import Mathlib

/-!
Verification of the boxbox repository's review-threading and
thumbnail-resolution logic.

This file gives a shallow embedding, in Lean, of the pure logic of:

* `organizeReviews` (src/src/pages/RacePage.tsx, lines 243-280): assembly of a
  flat review list into a nested reply forest;
* the quota manager (src/src/lib/quotaTest.ts, `QuotaManager`):
  `recordRequest`, `canMakeRequest`, `shouldSkipApiCall`,
  `getUsagePercentage`, `getQuotaStatus`;
* `searchYouTubeHighlights` (src/src/lib/thumbnailService.ts): the strict
  result-selection loop (lines 241-250) and the thumbnail quality probing
  loop (lines 251-278);
* the cache pipeline `getCachedThumbnail` / `findSimilarCachedThumbnail` /
  `getRaceHighlightThumbnail` (src/src/lib/thumbnailService.ts), modelled as
  state-passing functions over an environment that fixes the outcome of
  every external request, together with an explicit effect trace;
* the race-card mount logic (src/src/components/RaceCard.tsx).

JavaScript strings are modelled as Lean `String`; machine `number` values
used for comparisons (timestamps, counters) are modelled as `Nat`/`Int`;
the quota percentage, a JS float, is modelled in `ℚ` (exact at every input
used below).  Network effects are modelled by oracle functions inside an
environment plus an explicit effect trace.
-/

/-! ## JS string primitives

The TypeScript code uses `toLowerCase`, `trim`, `includes` and a first
occurrence `replace`.  They are modelled over `List Char` so that every
definition is structurally recursive and kernel-computable.  `toLowerCase`
is modelled ASCII-only (`Char.toLower`), which agrees with JS on all inputs
appearing in this code base.
-/

/-- JS `s.toLowerCase()` (ASCII). -/
def jsToLower (s : String) : String :=
  ⟨s.data.map Char.toLower⟩

/-- JS `s.trim()`: strip whitespace from both ends. -/
def jsTrim (s : String) : String :=
  ⟨((s.data.dropWhile Char.isWhitespace).reverse.dropWhile Char.isWhitespace).reverse⟩

/-- Remove the first occurrence of `pat` from `l` (JS `replace(pat, '')`
without the global flag). -/
def removeFirstOcc (pat : List Char) : List Char → List Char
  | [] => []
  | c :: t =>
    if pat.isPrefixOf (c :: t) then (c :: t).drop pat.length
    else c :: removeFirstOcc pat t

/-- Substring test over char lists (JS `includes`). -/
def charListContains (pat : List Char) : List Char → Bool
  | [] => pat.isEmpty
  | c :: t => pat.isPrefixOf (c :: t) || charListContains pat t

/-- JS `s.includes(sub)`. -/
def strIncludes (s sub : String) : Bool :=
  charListContains sub.data s.data

/-! ## Review tree assembly (`organizeReviews`, RacePage.tsx 243-280)

A `Review` row carries an id, an optional parent reference and a creation
timestamp (the value of `new Date(created_at).getTime()`, modelled as a
natural number).  Ids are uuid strings in the database; they are modelled
as abstract `Nat` identifiers.  Fields irrelevant to the tree assembly
(body, rating, user, …) are omitted: `organizeReviews` only copies them.
-/

structure Review where
  id : Nat
  parent_review_id : Option Nat
  created_at : Nat
deriving DecidableEq, Repr

/-- A node of the produced forest: the review together with its `replies`
list, exactly the mutable node shape `{ ...review, replies: [] }` built by
the first pass of `organizeReviews`. -/
inductive RNode where
  | mk : Review → List RNode → RNode
deriving Repr

def RNode.review : RNode → Review
  | .mk r _ => r

def RNode.replies : RNode → List RNode
  | .mk _ rs => rs

/-- The node registered in `reviewMap` under id `i`: JS `Map.set` overwrites,
so the node belonging to the LAST review of the list with that id wins. -/
def lookupNode (l : List Review) (i : Nat) : Option Review :=
  (l.filter (fun r => r.id == i)).getLast?

/-- The reviews appended (in input order) to the replies list of the node of
`r` by the second pass: all input reviews whose parent reference is `r.id`. -/
def childList (l : List Review) (r : Review) : List Review :=
  l.filter (fun c => c.parent_review_id == some r.id)

/-- Unfolding of the object graph produced by the two first passes of
`organizeReviews`, rooted at the node of `r`.  The JS code builds this graph
by mutation through `reviewMap`; each reply slot holds `reviewMap.get(c.id)`,
i.e. the node of the last review with that id.  The graph is unfolded with
explicit fuel, which never runs out on acyclic input (see `C1`). -/
def buildNode (l : List Review) : Nat → Review → RNode
  | 0, r => .mk r []
  | fuel + 1, r =>
    .mk r (((l.filter (fun c => c.parent_review_id == some r.id)).filterMap
      (fun c => lookupNode l c.id)).map (buildNode l fuel))

/-- The reviews pushed onto `topLevelReviews` (those whose
`parent_review_id` is null), in input order. -/
def topLevelReviews (l : List Review) : List Review :=
  l.filter (fun r => r.parent_review_id.isNone)

/-- The forest after the first two passes: one tree per top-level review,
rooted at `reviewMap.get(review.id)`. -/
def buildForest (l : List Review) : List RNode :=
  (topLevelReviews l).filterMap (fun r => (lookupNode l r.id).map (buildNode l l.length))

/-- Comparison used by the third pass:
`new Date(a.created_at).getTime() - new Date(b.created_at).getTime()`. -/
def nodeLe (a b : RNode) : Prop :=
  a.review.created_at ≤ b.review.created_at

instance : DecidableRel nodeLe :=
  fun a b => decidable_of_iff (a.review.created_at ≤ b.review.created_at) Iff.rfl

instance : IsTotal RNode nodeLe :=
  ⟨fun a b => Nat.le_total a.review.created_at b.review.created_at⟩

instance : IsTrans RNode nodeLe :=
  ⟨fun _ _ _ h1 h2 => Nat.le_trans h1 h2⟩

mutual
/-- Third pass (`sortReplies`): sort every replies list, at every depth, by
ascending creation time.  JS `Array.sort` is a stable sort; it is modelled
by `List.insertionSort`.  The source sorts a replies list before recursing
into its elements; since the comparison only reads `created_at`, which the
recursion preserves, sorting after the recursion (as written here, for
structural termination) produces the identical list. -/
def sortNode : RNode → RNode
  | .mk r rs => .mk r (List.insertionSort nodeLe (sortNodeList rs))
def sortNodeList : List RNode → List RNode
  | [] => []
  | n :: ns => sortNode n :: sortNodeList ns
end

/-- `organizeReviews` (RacePage.tsx 243-280): map pass, hierarchy pass,
recursive reply sort.  The returned top-level list keeps the input order
(only replies lists are sorted, matching the source). -/
def organizeReviews (l : List Review) : List RNode :=
  sortNodeList (buildForest l)

mutual
/-- All reviews appearing in a tree, with multiplicity. -/
def flattenNode : RNode → List Review
  | .mk r rs => r :: flattenForest rs
def flattenForest : List RNode → List Review
  | [] => []
  | n :: ns => flattenNode n ++ flattenForest ns
end

/-- Total node count of a forest: top-level nodes plus all nested reply
nodes at every depth. -/
def totalCount (f : List RNode) : Nat :=
  (flattenForest f).length

mutual
/-- Each node's replies list is sorted by non-decreasing creation time, at
every depth. -/
def repliesSortedNode : RNode → Prop
  | .mk _ rs => List.Pairwise nodeLe rs ∧ repliesSortedForest rs
def repliesSortedForest : List RNode → Prop
  | [] => True
  | n :: ns => repliesSortedNode n ∧ repliesSortedForest ns
end

/-- The review ids of the input list are pairwise distinct (true of the
database rows, whose id is the primary key). -/
def idsNodup (l : List Review) : Prop :=
  (l.map Review.id).Nodup

/-- Every non-null parent reference matches the id of some review in the
list. -/
def parentsClosed (l : List Review) : Prop :=
  ∀ r ∈ l, ∀ p, r.parent_review_id = some p → ∃ q ∈ l, q.id = p

/-- Boolean check for `parentsClosed`. -/
def parentsClosedB (l : List Review) : Bool :=
  l.all (fun r =>
    match r.parent_review_id with
    | none => true
    | some p => l.any (fun q => q.id == p))

/-- The parent relation is acyclic: some depth assignment, bounded by the
list length, strictly decreases from each review to its parent.  For a list
with distinct ids this is equivalent to no review being its own (strict)
ancestor. -/
def ranked (l : List Review) (rank : Review → Nat) : Prop :=
  (∀ r ∈ l, rank r < l.length) ∧
    ∀ r ∈ l, ∀ q ∈ l, r.parent_review_id = some q.id → rank q < rank r

/-! ## Quota manager (quotaTest.ts, class `QuotaManager`)

The persisted fields of the singleton: `requestCount` and `dailyLimit`
(default 10000).  Persistence (localStorage) and the midnight reset are
orthogonal to the claims below and are not modelled; `recordRequest`
increments the in-memory counter and the queries below read it.
-/

structure QuotaState where
  requestCount : Nat
  dailyLimit : Nat
deriving DecidableEq, Repr

/-- `recordRequest()`: `this.requestCount++`. -/
def recordRequest (s : QuotaState) : QuotaState :=
  { s with requestCount := s.requestCount + 1 }

/-- `canMakeRequest()`: `this.requestCount < this.dailyLimit`. -/
def canMakeRequest (s : QuotaState) : Bool :=
  s.requestCount < s.dailyLimit

/-- `shouldSkipApiCall()`: `!quotaManager.canMakeRequest()`. -/
def shouldSkipApiCall (s : QuotaState) : Bool :=
  !canMakeRequest s

/-- `getRemainingRequests()`: `Math.max(0, dailyLimit - requestCount)`
(truncated subtraction on `Nat` is exactly this). -/
def getRemainingRequests (s : QuotaState) : Nat :=
  s.dailyLimit - s.requestCount

/-- `getUsagePercentage()`: `(requestCount / dailyLimit) * 100`.  The JS
float division is modelled in `ℚ`; both give `x/0 ⟶` "not `≥ 80`/`≥ 100`"
when `requestCount = 0`, and the model is exact whenever `dailyLimit > 0`. -/
def getUsagePercentage (s : QuotaState) : ℚ :=
  ((s.requestCount : ℚ) / (s.dailyLimit : ℚ)) * 100

/-- `isQuotaExceeded()`: `requestCount >= dailyLimit`. -/
def isQuotaExceeded (s : QuotaState) : Bool :=
  s.dailyLimit ≤ s.requestCount

/-- `getQuotaStatus()`: tri-state label from the usage percentage. -/
def getQuotaStatus (s : QuotaState) : String :=
  if (100 : ℚ) ≤ getUsagePercentage s then "Quota Exceeded"
  else if (80 : ℚ) ≤ getUsagePercentage s then "Quota Low"
  else "Quota OK"

/-! ## `searchYouTubeHighlights`: strict result filtering
(thumbnailService.ts 241-296)

A YouTube search result item, restricted to the fields the loop reads. -/

structure VideoItem where
  videoId : String
  videoTitle : String
  channelId : String
  channelTitle : String
deriving DecidableEq, Repr

def FORMULA_1_CHANNEL_ID : String := "UCB_qr77-2MVdNm0jKKG-h6g"

/-- `normalizedRaceName` (line 242):
`raceName.toLowerCase().replace(/ grand prix/i, '').trim()`.  The regex has
no global flag, so only the first occurrence is removed; acting on the
already lowercased string, the case-insensitive pattern is the literal
lowercase text. -/
def normalizedRaceName (raceName : String) : String :=
  jsTrim ⟨removeFirstOcc (" grand prix").data (jsToLower raceName).data⟩

/-- The per-item test of the selection loop (lines 246-250): official F1
channel id, and lowercased title containing both the word `highlight` and
the normalized race name. -/
def matchesStrict (raceName : String) (item : VideoItem) : Bool :=
  item.channelId == FORMULA_1_CHANNEL_ID
    && strIncludes (jsToLower item.videoTitle) ("highlight")
    && strIncludes (jsToLower item.videoTitle) (normalizedRaceName raceName)

/-- The selection loop (lines 243-288): the first item passing
`matchesStrict` is used; there is no other selection stage. -/
def selectHighlightItem (raceName : String) (items : List VideoItem) : Option VideoItem :=
  items.find? (matchesStrict raceName)

/-! ## `searchYouTubeHighlights`: thumbnail quality probing
(thumbnailService.ts 251-278) -/

/-- `thumbnailQualities` (lines 252-258), in source order. -/
def thumbnailQualities : List String :=
  ["maxresdefault.jpg", "hqdefault.jpg", "mqdefault.jpg", "sddefault.jpg", "default.jpg"]

/-- `https://img.youtube.com/vi/${videoId}/${quality}`. -/
def thumbUrl (videoId quality : String) : String :=
  "https://img.youtube.com/vi/" ++ videoId ++ "/" ++ quality

/-- The probing loop computing `finalThumbnailUrl` (lines 259-278).
`headOk url = true` models a HEAD request answered with an ok status;
`false` covers both a non-ok response and a thrown/timed-out request (the
source `continue`s in both cases).  The first url whose check succeeds is
used; when none succeeds the loop falls back, unvalidated, to the
`hqdefault.jpg` url. -/
def finalThumbnailUrl (headOk : String → Bool) (videoId : String) : String :=
  match thumbnailQualities.find? (fun q => headOk (thumbUrl videoId q)) with
  | some q => thumbUrl videoId q
  | none => thumbUrl videoId ("hqdefault.jpg")

/-! ## Thumbnail cache pipeline (thumbnailService.ts)

The pipeline `getRaceHighlightThumbnail` is a sequence of awaited external
interactions: a cache table read, HEAD checks, a cache delete/write, the
YouTube search.  It is modelled as a state-passing function over an `Env`
fixing the cache table contents, the outcome of every HEAD request (by
url) and the `ThumbnailResult` the embedded `searchYouTubeHighlights` call
would produce.  Every external interaction is additionally recorded in an
effect trace, so that "no search API call is made" is a statement about
the trace.
-/

/-- The result record (interface `ThumbnailResult`).  Optional TS fields
are `Option`s; an absent (`undefined`) field is `none`. -/
structure ThumbnailResult where
  success : Bool
  raceName : String
  thumbnailUrl : Option String := none
  videoId : Option String := none
  channelTitle : Option String := none
  videoTitle : Option String := none
  cached : Option Bool := none
  year : Option String := none
  error : Option String := none
  fallback : Option Bool := none
deriving DecidableEq, Repr

/-- A row of the `thumbnail_cache` table (interface `CachedThumbnail`;
`id`/`created_at` are never read by the pipeline and are omitted). -/
structure CacheEntry where
  race_name : String
  video_id : String
  thumbnail_url : String
  channel_title : String
  video_title : String
  year : String
deriving DecidableEq, Repr

/-- Outcome of a `fetch(url, { method: 'HEAD' })`: response with
`response.ok` true, response with `response.ok` false, or a thrown error
(network failure or the `AbortSignal.timeout` firing). -/
inductive HeadResult where
  | ok
  | notOk
  | threw
deriving DecidableEq, Repr

/-- External interactions recorded by the model. -/
inductive Effect where
  | headRequest : String → Effect
  | cacheDelete : String → String → Effect
  | searchInvoked : Effect
  | cacheWrite : String → String → Effect
  | raceUpdate : String → String → Effect
deriving DecidableEq, Repr

/-- The fixed external world: cache table rows (in query order), HEAD
outcomes per url, and the result the `searchYouTubeHighlights` call
produces if invoked. -/
structure Env where
  cache : List CacheEntry
  headCheck : String → HeadResult
  searchOutcome : ThumbnailResult

/-- The `.eq('race_name', raceName).eq('year', year)` row filter. -/
def cacheKeyMatches (raceName year : String) (e : CacheEntry) : Bool :=
  e.race_name == raceName && e.year == year

/-- The cache delete issued for an invalid entry (lines 66-70):
`delete().eq('race_name', raceName).eq('year', year)`. -/
def deleteCacheEntry (env : Env) (raceName year : String) : Env :=
  { env with cache := env.cache.filter (fun e => !cacheKeyMatches raceName year e) }

/-- `getCachedThumbnail` (lines 35-87): look the key up (`maybeSingle`);
on a hit, validate the stored url with a HEAD request — JS truthiness of
`data.thumbnail_url` skips validation for an empty string.  A non-ok
response deletes the entry and yields null; a thrown check is caught and
yields null without deleting; an ok response yields the entry.  Returns
the JS return value, the updated world and the effect trace. -/
def getCachedThumbnail (env : Env) (raceName year : String) :
    Option CacheEntry × Env × List Effect :=
  match env.cache.find? (cacheKeyMatches raceName year) with
  | none => (none, env, [])
  | some e =>
    if e.thumbnail_url == "" then (some e, env, [])
    else
      match env.headCheck e.thumbnail_url with
      | .ok => (some e, env, [Effect.headRequest e.thumbnail_url])
      | .notOk =>
        (none, deleteCacheEntry env raceName year,
          [Effect.headRequest e.thumbnail_url, Effect.cacheDelete raceName year])
      | .threw => (none, env, [Effect.headRequest e.thumbnail_url])

/-- `findSimilarCachedThumbnail` (lines 121-140):
`.eq('year', year).limit(1).maybeSingle()` — any cached row of that year. -/
def findSimilarCachedThumbnail (env : Env) (year : String) : Option CacheEntry :=
  env.cache.find? (fun e => e.year == year)

/-- `cachedResult.channel_title || undefined`: JS `||` turns the falsy
empty string into `undefined`. -/
def orUndefined (s : String) : Option String :=
  if s == "" then none else some s

/-- The result built from a cache row: the plain cached return of lines
358-368 (`fb = false`) and the quota fallback return of lines 380-391
(`fb = true`, which adds `fallback: true`). -/
def cachedResultOf (raceName : String) (e : CacheEntry) (fb : Bool) : ThumbnailResult :=
  { success := true
    raceName := raceName
    thumbnailUrl := some e.thumbnail_url
    videoId := some e.video_id
    channelTitle := orUndefined e.channel_title
    videoTitle := orUndefined e.video_title
    cached := some true
    year := orUndefined e.year
    fallback := if fb then some true else none }

/-- `error?.includes('quota')` on the search result (line 377). -/
def errorMentionsQuota (r : ThumbnailResult) : Bool :=
  match r.error with
  | some msg => strIncludes msg ("quota")
  | none => false

/-- `cacheThumbnail` (lines 92-116): upsert with
`onConflict: 'race_name,year'`. -/
def upsertCacheEntry (env : Env) (e : CacheEntry) : Env :=
  { env with
    cache := e :: env.cache.filter (fun x => !cacheKeyMatches e.race_name e.year x) }

/-- JS truthiness of an optional string field. -/
def truthy : Option String → Bool
  | none => false
  | some s => !(s == "")

/-- `getRaceHighlightThumbnail` (lines 348-431): cache first; on a miss
run `searchYouTubeHighlights`; on a failed search whose error mentions the
quota, fall back to any cached row of the same year; on success, upsert
the cache, opportunistically update the race row, and return the search
result marked `cached: false` with the year attached. -/
def getRaceHighlightThumbnail (env : Env) (raceName year : String) :
    ThumbnailResult × Env × List Effect :=
  match getCachedThumbnail env raceName year with
  | (some e, env1, tr1) => (cachedResultOf raceName e false, env1, tr1)
  | (none, env1, tr1) =>
    let yt := env1.searchOutcome
    let tr2 := tr1 ++ [Effect.searchInvoked]
    if yt.success then
      let env2 := upsertCacheEntry env1
        ⟨raceName, yt.videoId.getD "", yt.thumbnailUrl.getD "",
          yt.channelTitle.getD "", yt.videoTitle.getD "", year⟩
      let tr3 := tr2 ++ [Effect.cacheWrite raceName year]
      if truthy yt.videoId && truthy yt.thumbnailUrl then
        ({ yt with cached := some false, year := some year }, env2,
          tr3 ++ [Effect.raceUpdate raceName year])
      else
        ({ yt with cached := some false, year := some year }, env2, tr3)
    else
      if errorMentionsQuota yt then
        match findSimilarCachedThumbnail env1 year with
        | some sim => (cachedResultOf raceName sim true, env1, tr2)
        | none => (yt, env1, tr2)
      else (yt, env1, tr2)

/-! ## Race card mount logic (RaceCard.tsx)

`hasHappened` compares the race date with the current time; the mount
effect starts the thumbnail loading sequence only for a race that has
happened, and the render shows a static placeholder for a future race.
Timestamps are modelled as `Int` milliseconds (`Date` comparison is
numeric comparison of epoch milliseconds). -/

/-- `const hasHappened = raceDate <= now` (line 29). -/
def hasHappened (raceDate now : Int) : Bool :=
  raceDate ≤ now

/-- The mount effect (lines 31-38): `loadThumbnail()` — the entry point of
the whole thumbnail-resolution network sequence — is called exactly when
the race has happened; otherwise only `setThumbnailLoading(false)` runs. -/
def mountStartsThumbnailLoad (raceDate now : Int) : Bool :=
  hasHappened raceDate now

/-- The static placeholder image of the not-yet-happened branch
(lines 135-143). -/
def placeholderImageUrl : String :=
  "https://upload.wikimedia.org/wikipedia/commons/thumb/3/33/F1.svg/512px-F1.svg.png"

/-- What the card's media area shows (lines 134-158): the placeholder for
a future race, the spinner while loading, otherwise the resolved url. -/
def renderedThumbnail (raceDate now : Int) (thumbnailLoading : Bool)
    (thumbnailUrl : String) : String :=
  if !hasHappened raceDate now then placeholderImageUrl
  else if thumbnailLoading then "spinner" else thumbnailUrl

/-- Concrete search items used to exercise the selection loop: a loose
title match appearing before an exact "Race Highlights | …" title. -/
def monacoItemA : VideoItem :=
  ⟨"vidA", "Monaco highlight recap", FORMULA_1_CHANNEL_ID, "FORMULA 1"⟩

def monacoItemB : VideoItem :=
  ⟨"vidB", "Race Highlights | 2024 Monaco Grand Prix", FORMULA_1_CHANNEL_ID, "FORMULA 1"⟩

/-- The chain of ancestors of `x` through the parent references, following
`lookupNode` (the `reviewMap`), with fuel: `x`, its parent's node, the
parent's parent's node, … The chain stops at a review without parent, at a
dangling reference, or when the fuel runs out; on ranked input the fuel
`l.length` always suffices. -/
def ancChain (l : List Review) : Nat → Review → List Review
  | 0, x => [x]
  | fuel + 1, x =>
    x :: (match x.parent_review_id with
      | none => []
      | some p =>
        match lookupNode l p with
        | none => []
        | some q => ancChain l fuel q)

instance (l : List Review) : Decidable (parentsClosed l) :=
  decidable_of_iff (parentsClosedB l = true) (by
    constructor
    · intro hb r hr p hp
      unfold parentsClosedB at hb
      have hall := List.all_eq_true.mp hb r hr
      rw [hp] at hall
      obtain ⟨q, hq, hqid⟩ := List.any_eq_true.mp hall
      exact ⟨q, hq, by simpa using hqid⟩
    · intro hp
      unfold parentsClosedB
      rw [List.all_eq_true]
      intro r hr
      cases hpr : r.parent_review_id with
      | none => rfl
      | some p =>
        obtain ⟨q, hq, hqid⟩ := hp r hr p hpr
        exact List.any_eq_true.mpr ⟨q, hq, by simp [hqid]⟩)

instance (l : List Review) : Decidable (idsNodup l) := by
  unfold idsNodup
  infer_instance

instance (l : List Review) (rank : Review → Nat) : Decidable (ranked l rank) := by
  unfold ranked
  infer_instance

/-- A concrete acyclic review list with distinct ids: one top-level review
and two replies to it, listed out of creation order. -/
def sampleReviews : List Review :=
  [⟨1, none, 5⟩, ⟨2, some 1, 9⟩, ⟨3, some 1, 4⟩]

/-- A depth assignment witnessing that `sampleReviews` is acyclic. -/
def sampleRank (r : Review) : Nat :=
  match r.parent_review_id with
  | none => 0
  | some _ => 1

/-- A concrete cache row used to exercise the cache pipeline. -/
def monacoEntry : CacheEntry :=
  ⟨"Monaco Grand Prix", "vid123", "https://img.youtube.com/vi/vid123/maxresdefault.jpg",
    "FORMULA 1", "Race Highlights | 2024 Monaco Grand Prix", "2024"⟩

/-- A second cache row for a different race of the same year. -/
def spanishEntry : CacheEntry :=
  ⟨"Spanish Grand Prix", "vid456", "https://img.youtube.com/vi/vid456/maxresdefault.jpg",
    "FORMULA 1", "Race Highlights | 2024 Spanish Grand Prix", "2024"⟩

/-- A failed search result whose error message mentions the quota. -/
def quotaFailResult : ThumbnailResult :=
  { success := false
    raceName := "Monaco Grand Prix"
    error := some "YouTube API quota exceeded. Please try again later." }

/-- Worlds used by the pipeline witnesses: every HEAD check answers ok /
non-ok / throws, respectively. -/
def envAllOk : Env := ⟨[monacoEntry], fun _ => HeadResult.ok, quotaFailResult⟩

def envAllNotOk : Env := ⟨[monacoEntry], fun _ => HeadResult.notOk, quotaFailResult⟩

def envAllThrew : Env := ⟨[monacoEntry], fun _ => HeadResult.threw, quotaFailResult⟩

/-- A world whose cache holds no entry for Monaco 2024 but one for another
race of 2024. -/
def envSimilarOnly : Env := ⟨[spanishEntry], fun _ => HeadResult.ok, quotaFailResult⟩

/-! ## Helper lemmas -/

/-- `find?` returns the first element satisfying the predicate: it is a
member, it satisfies the predicate, and everything before it fails it. -/
theorem find?_first {α : Type} (p : α → Bool) :
    ∀ (xs : List α) (a : α), xs.find? p = some a →
      p a = true ∧ ∃ pre post, xs = pre ++ a :: post ∧ ∀ b ∈ pre, p b = false := by
  intro xs
  induction xs with
  | nil => intro a h; simp at h
  | cons x t ih =>
    intro a h
    by_cases hx : p x = true
    · rw [List.find?_cons_of_pos _ hx] at h
      obtain rfl : x = a := by injection h
      exact ⟨hx, [], t, rfl, by simp⟩
    · rw [List.find?_cons_of_neg _ (by simpa using hx)] at h
      obtain ⟨hpa, pre, post, rfl, hpre⟩ := ih a h
      refine ⟨hpa, x :: pre, post, rfl, ?_⟩
      intro b hb
      rcases List.mem_cons.mp hb with rfl | hb
      · simpa using hx
      · exact hpre b hb

/-! ## Claim C3 -/

/-- C3, counterexample.  The claim says an item whose title equals the
exact pattern "Race Highlights | {year} {race} Grand Prix" is preferred
over earlier loose matches.  The code has no such stage: with an exact
titled item in second position, the loop returns the first loose match. -/
theorem C3_counterexample :
    monacoItemB.videoTitle = "Race Highlights | 2024 Monaco Grand Prix"
    ∧ selectHighlightItem ("Monaco Grand Prix") [monacoItemA, monacoItemB] = some monacoItemA
    ∧ monacoItemA.videoTitle ≠ "Race Highlights | 2024 Monaco Grand Prix" := by
  decide

/-- C3, amended: `searchYouTubeHighlights` selects the first result from
the official F1 channel whose lowercased title contains both the keyword
`highlight` and the normalized race name (lowercased race name with the
first " grand prix" removed, trimmed); there is no exact-pattern stage. -/
theorem C3_amended (raceName : String) (items : List VideoItem) (it : VideoItem)
    (h : selectHighlightItem raceName items = some it) :
    it ∈ items ∧ matchesStrict raceName it = true
    ∧ ∃ pre post, items = pre ++ it :: post ∧ ∀ j ∈ pre, matchesStrict raceName j = false := by
  obtain ⟨hit, pre, post, rfl, hpre⟩ := find?_first (matchesStrict raceName) items it h
  exact ⟨by simp, hit, pre, post, rfl, hpre⟩

/-- C3, witness for `C3_amended` at a concrete input. -/
theorem C3_amended_witness :
    selectHighlightItem ("Monaco Grand Prix") [monacoItemB] = some monacoItemB
    ∧ (monacoItemB ∈ [monacoItemB] ∧ matchesStrict ("Monaco Grand Prix") monacoItemB = true
      ∧ ∃ pre post, [monacoItemB] = pre ++ monacoItemB :: post
        ∧ ∀ j ∈ pre, matchesStrict ("Monaco Grand Prix") j = false) :=
  ⟨by decide, C3_amended ("Monaco Grand Prix") [monacoItemB] monacoItemB (by decide)⟩

/-! ## Claim C4 -/

/-- C4, counterexample.  The claim says that when every probe fails the
fallback is the default-quality url (`default.jpg`); the code falls back
to the high-quality url (`hqdefault.jpg`). -/
theorem C4_counterexample :
    finalThumbnailUrl (fun _ => false) ("abc") = "https://img.youtube.com/vi/abc/hqdefault.jpg"
    ∧ finalThumbnailUrl (fun _ => false) ("abc") ≠ "https://img.youtube.com/vi/abc/default.jpg" := by
  decide

/-- C4, amended: thumbnail urls are probed in the descending quality order
maxresdefault, hqdefault, mqdefault, sddefault, default; the first url
whose existence check succeeds is used; if none succeeds the high-quality
(`hqdefault.jpg`) url is used without validation. -/
theorem C4_amended (headOk : String → Bool) (videoId : String) :
    (∃ q pre post, thumbnailQualities = pre ++ q :: post
      ∧ headOk (thumbUrl videoId q) = true
      ∧ (∀ p ∈ pre, headOk (thumbUrl videoId p) = false)
      ∧ finalThumbnailUrl headOk videoId = thumbUrl videoId q)
    ∨ ((∀ q ∈ thumbnailQualities, headOk (thumbUrl videoId q) = false)
      ∧ finalThumbnailUrl headOk videoId = thumbUrl videoId ("hqdefault.jpg")) := by
  cases hf : thumbnailQualities.find? (fun q => headOk (thumbUrl videoId q)) with
  | none =>
    refine Or.inr ⟨?_, ?_⟩
    · intro q hq
      simpa using List.find?_eq_none.mp hf q hq
    · unfold finalThumbnailUrl
      rw [hf]
  | some q =>
    obtain ⟨hq, pre, post, heq, hpre⟩ := find?_first _ _ _ hf
    refine Or.inl ⟨q, pre, post, heq, by simpa using hq, ?_, ?_⟩
    · intro p hp
      simpa using hpre p hp
    · unfold finalThumbnailUrl
      rw [hf]

/-! ## Claim C5 -/

/-- Iterating `recordRequest` adds to the counter and keeps the limit. -/
theorem iterate_recordRequest (n : Nat) (s : QuotaState) :
    recordRequest^[n] s = ⟨s.requestCount + n, s.dailyLimit⟩ := by
  induction n with
  | zero => simp
  | succ k ih =>
    rw [Function.iterate_succ_apply', ih, recordRequest]
    simp [Nat.add_assoc]

/-- For a positive limit, the 100% threshold is `dailyLimit ≤ requestCount`. -/
theorem usage_ge_100_iff (s : QuotaState) (h : 0 < s.dailyLimit) :
    ((100 : ℚ) ≤ getUsagePercentage s) ↔ s.dailyLimit ≤ s.requestCount := by
  have hL : (0 : ℚ) < (s.dailyLimit : ℚ) := by exact_mod_cast h
  unfold getUsagePercentage
  rw [div_mul_eq_mul_div, le_div_iff₀ hL]
  constructor
  · intro hle
    have : (s.dailyLimit : ℚ) ≤ (s.requestCount : ℚ) := by linarith
    exact_mod_cast this
  · intro hle
    have : (s.dailyLimit : ℚ) ≤ (s.requestCount : ℚ) := by exact_mod_cast hle
    linarith

/-- For a positive limit, the 80% threshold is `4·dailyLimit ≤ 5·requestCount`. -/
theorem usage_ge_80_iff (s : QuotaState) (h : 0 < s.dailyLimit) :
    ((80 : ℚ) ≤ getUsagePercentage s) ↔ 4 * s.dailyLimit ≤ 5 * s.requestCount := by
  have hL : (0 : ℚ) < (s.dailyLimit : ℚ) := by exact_mod_cast h
  unfold getUsagePercentage
  rw [div_mul_eq_mul_div, le_div_iff₀ hL]
  constructor
  · intro hle
    have h4 : (4 * s.dailyLimit : ℚ) ≤ (5 * s.requestCount : ℚ) := by linarith
    exact_mod_cast h4
  · intro hle
    have h4 : (4 * s.dailyLimit : ℚ) ≤ (5 * s.requestCount : ℚ) := by exact_mod_cast hle
    push_cast at h4
    linarith


/-- C5, counterexample.  With the daily ceiling configured to 0 and a
fresh state, N = dailyLimit = 0 recorded calls leave the usage percentage
at `0/0 · 100` (`NaN` in JS, so neither threshold test passes; in this
exact model `0/0 = 0`, with the same outcome), so the status is
"Quota OK", not "Quota Exceeded" — although `shouldSkipApiCall` does
return true. -/
theorem C5_counterexample :
    shouldSkipApiCall (recordRequest^[0] ⟨0, 0⟩) = true
    ∧ getQuotaStatus (recordRequest^[0] ⟨0, 0⟩) = "Quota OK"
    ∧ getQuotaStatus (recordRequest^[0] ⟨0, 0⟩) ≠ "Quota Exceeded" := by
  have h0 : getUsagePercentage ⟨0, 0⟩ = 0 := by
    simp [getUsagePercentage]
  have hs : getQuotaStatus (recordRequest^[0] ⟨0, 0⟩) = "Quota OK" := by
    simp only [Function.iterate_zero, id_eq, getQuotaStatus, h0]
    norm_num
  exact ⟨by decide, hs, by rw [hs]; decide⟩

/-- C5, amended: provided the configured daily ceiling is positive:
starting from a fresh state with zero recorded calls, after exactly
N = dailyLimit calls the status is "Quota Exceeded" and
`shouldSkipApiCall` returns true; in general the status is "Quota
Exceeded" iff usage is at least 100% of the ceiling
(`dailyLimit ≤ requestCount`), "Quota Low" iff usage is at least 80% but
below 100% (`4·dailyLimit ≤ 5·requestCount` and
`requestCount < dailyLimit`), and "Quota OK" otherwise. -/
theorem C5_amended (N : Nat) (s : QuotaState) (hN : 0 < N) (hs : 0 < s.dailyLimit) :
    getQuotaStatus (recordRequest^[N] ⟨0, N⟩) = "Quota Exceeded"
    ∧ shouldSkipApiCall (recordRequest^[N] ⟨0, N⟩) = true
    ∧ (getQuotaStatus s = "Quota Exceeded" ↔ s.dailyLimit ≤ s.requestCount)
    ∧ (getQuotaStatus s = "Quota Low"
        ↔ 4 * s.dailyLimit ≤ 5 * s.requestCount ∧ s.requestCount < s.dailyLimit)
    ∧ (getQuotaStatus s = "Quota OK" ↔ 5 * s.requestCount < 4 * s.dailyLimit) := by
  have hchar : ∀ t : QuotaState, 0 < t.dailyLimit →
      (getQuotaStatus t = "Quota Exceeded" ↔ t.dailyLimit ≤ t.requestCount)
      ∧ (getQuotaStatus t = "Quota Low"
          ↔ 4 * t.dailyLimit ≤ 5 * t.requestCount ∧ t.requestCount < t.dailyLimit)
      ∧ (getQuotaStatus t = "Quota OK" ↔ 5 * t.requestCount < 4 * t.dailyLimit) := by
    intro t ht
    have h100 := usage_ge_100_iff t ht
    have h80 := usage_ge_80_iff t ht
    by_cases h1 : (100 : ℚ) ≤ getUsagePercentage t
    · have hst : getQuotaStatus t = "Quota Exceeded" := by
        simp only [getQuotaStatus, if_pos h1]
      have hc : t.dailyLimit ≤ t.requestCount := h100.mp h1
      rw [hst]
      refine ⟨by simp [hc], ?_, ?_⟩
      · constructor
        · intro hx; exact absurd hx (by decide)
        · intro hx; omega
      · constructor
        · intro hx; exact absurd hx (by decide)
        · intro hx; omega
    · by_cases h2 : (80 : ℚ) ≤ getUsagePercentage t
      · have hst : getQuotaStatus t = "Quota Low" := by
          simp only [getQuotaStatus, if_neg h1, if_pos h2]
        have hc1 : ¬ t.dailyLimit ≤ t.requestCount := fun hx => h1 (h100.mpr hx)
        have hc2 : 4 * t.dailyLimit ≤ 5 * t.requestCount := h80.mp h2
        rw [hst]
        refine ⟨?_, ?_, ?_⟩
        · constructor
          · intro hx; exact absurd hx (by decide)
          · intro hx; omega
        · constructor
          · intro _; exact ⟨hc2, by omega⟩
          · intro _; rfl
        · constructor
          · intro hx; exact absurd hx (by decide)
          · intro hx; omega
      · have hst : getQuotaStatus t = "Quota OK" := by
          simp only [getQuotaStatus, if_neg h1, if_neg h2]
        have hc1 : ¬ t.dailyLimit ≤ t.requestCount := fun hx => h1 (h100.mpr hx)
        have hc2 : ¬ 4 * t.dailyLimit ≤ 5 * t.requestCount := fun hx => h2 (h80.mpr hx)
        rw [hst]
        refine ⟨?_, ?_, ?_⟩
        · constructor
          · intro hx; exact absurd hx (by decide)
          · intro hx; omega
        · constructor
          · intro hx; exact absurd hx (by decide)
          · intro hx; omega
        · constructor
          · intro _; omega
          · intro _; rfl
  have hfull : recordRequest^[N] ⟨0, N⟩ = ⟨N, N⟩ := by
    rw [iterate_recordRequest]
    simp
  obtain ⟨he, _, _⟩ := hchar ⟨N, N⟩ (by simpa using hN)
  obtain ⟨he2, hl2, ho2⟩ := hchar s hs
  refine ⟨?_, ?_, he2, hl2, ho2⟩
  · rw [hfull]
    exact he.mpr (by simp)
  · rw [hfull]
    simp [shouldSkipApiCall, canMakeRequest]

/-- C5, witness for `C5_amended` at N = 5 and the state 4/5 (80%: low). -/
theorem C5_amended_witness :
    (0 < 5 ∧ 0 < (QuotaState.mk 4 5).dailyLimit)
    ∧ (getQuotaStatus (recordRequest^[5] ⟨0, 5⟩) = "Quota Exceeded"
      ∧ shouldSkipApiCall (recordRequest^[5] ⟨0, 5⟩) = true
      ∧ (getQuotaStatus ⟨4, 5⟩ = "Quota Exceeded"
          ↔ (QuotaState.mk 4 5).dailyLimit ≤ (QuotaState.mk 4 5).requestCount)
      ∧ (getQuotaStatus ⟨4, 5⟩ = "Quota Low"
          ↔ 4 * (QuotaState.mk 4 5).dailyLimit ≤ 5 * (QuotaState.mk 4 5).requestCount
            ∧ (QuotaState.mk 4 5).requestCount < (QuotaState.mk 4 5).dailyLimit)
      ∧ (getQuotaStatus ⟨4, 5⟩ = "Quota OK"
          ↔ 5 * (QuotaState.mk 4 5).requestCount < 4 * (QuotaState.mk 4 5).dailyLimit)) :=
  ⟨⟨by decide, by decide⟩, C5_amended 5 ⟨4, 5⟩ (by decide) (by decide)⟩

/-! ## Claim C6 -/

/-- C6: for a race dated strictly after the current time, the mount effect
never starts the thumbnail-loading sequence (so the thumbnail resolution
issues no network call), and the card renders the static placeholder
image whatever the loading state holds. -/
theorem C6_future_race (raceDate now : Int) (h : now < raceDate) :
    mountStartsThumbnailLoad raceDate now = false
    ∧ ∀ loading url, renderedThumbnail raceDate now loading url = placeholderImageUrl := by
  have hh : hasHappened raceDate now = false := by
    simp only [hasHappened, decide_eq_false_iff_not]
    omega
  constructor
  · simpa [mountStartsThumbnailLoad] using hh
  · intro loading url
    simp [renderedThumbnail, hh]

/-- C6, witness at a concrete future race date. -/
theorem C6_future_race_witness :
    ((3 : Int) < 10)
    ∧ (mountStartsThumbnailLoad 10 3 = false
      ∧ ∀ loading url, renderedThumbnail 10 3 loading url = placeholderImageUrl) :=
  ⟨by decide, C6_future_race 10 3 (by decide)⟩

/-! ## Cache pipeline lemmas -/

/-- Evaluation of `getCachedThumbnail` on a hit whose url validates. -/
theorem getCachedThumbnail_ok (env : Env) (raceName year : String) (e : CacheEntry)
    (hfind : env.cache.find? (cacheKeyMatches raceName year) = some e)
    (hurl : e.thumbnail_url ≠ "")
    (hok : env.headCheck e.thumbnail_url = HeadResult.ok) :
    getCachedThumbnail env raceName year = (some e, env, [Effect.headRequest e.thumbnail_url]) := by
  unfold getCachedThumbnail
  rw [hfind]
  simp only [beq_iff_eq, if_neg hurl, hok]

/-- Evaluation of `getCachedThumbnail` on a hit whose url check completes
with a non-ok status: the entry is deleted. -/
theorem getCachedThumbnail_notOk (env : Env) (raceName year : String) (e : CacheEntry)
    (hfind : env.cache.find? (cacheKeyMatches raceName year) = some e)
    (hurl : e.thumbnail_url ≠ "")
    (hbad : env.headCheck e.thumbnail_url = HeadResult.notOk) :
    getCachedThumbnail env raceName year
      = (none, deleteCacheEntry env raceName year,
          [Effect.headRequest e.thumbnail_url, Effect.cacheDelete raceName year]) := by
  unfold getCachedThumbnail
  rw [hfind]
  simp only [beq_iff_eq, if_neg hurl, hbad]

/-- Evaluation of `getCachedThumbnail` on a hit whose url check throws:
null is returned and the world is untouched. -/
theorem getCachedThumbnail_threw (env : Env) (raceName year : String) (e : CacheEntry)
    (hfind : env.cache.find? (cacheKeyMatches raceName year) = some e)
    (hurl : e.thumbnail_url ≠ "")
    (hthrew : env.headCheck e.thumbnail_url = HeadResult.threw) :
    getCachedThumbnail env raceName year = (none, env, [Effect.headRequest e.thumbnail_url]) := by
  unfold getCachedThumbnail
  rw [hfind]
  simp only [beq_iff_eq, if_neg hurl, hthrew]

/-- `getCachedThumbnail` only touches the cache table: the HEAD oracle and
the search outcome of the world are unchanged. -/
theorem getCachedThumbnail_preserves (env : Env) (raceName year : String) :
    (getCachedThumbnail env raceName year).2.1.headCheck = env.headCheck
    ∧ (getCachedThumbnail env raceName year).2.1.searchOutcome = env.searchOutcome := by
  unfold getCachedThumbnail
  rcases hf : env.cache.find? (cacheKeyMatches raceName year) with _ | e
  · simp
  · by_cases hu : e.thumbnail_url = ""
    · simp [hu]
    · cases hh : env.headCheck e.thumbnail_url <;>
        simp [beq_iff_eq, hu, hh, deleteCacheEntry]

/-- On a cache miss the pipeline invokes the search: the final trace is
the cache-phase trace followed by `searchInvoked` and the remaining
effects. -/
theorem getRace_trace_structure (env : Env) (raceName year : String)
    (hmiss : (getCachedThumbnail env raceName year).1 = none) :
    ∃ rest, (getRaceHighlightThumbnail env raceName year).2.2
      = (getCachedThumbnail env raceName year).2.2 ++ (Effect.searchInvoked :: rest) := by
  unfold getRaceHighlightThumbnail
  rcases hgc : getCachedThumbnail env raceName year with ⟨c, env1, tr1⟩
  rw [hgc] at hmiss
  obtain rfl : c = none := hmiss
  simp only []
  by_cases hsucc : env1.searchOutcome.success
  · by_cases htr : truthy env1.searchOutcome.videoId && truthy env1.searchOutcome.thumbnailUrl
    · exact ⟨[Effect.cacheWrite raceName year, Effect.raceUpdate raceName year],
        by simp [hsucc, htr]⟩
    · exact ⟨[Effect.cacheWrite raceName year], by simp [hsucc, htr]⟩
  · by_cases hq : errorMentionsQuota env1.searchOutcome
    · rcases hsim : findSimilarCachedThumbnail env1 year with _ | sim
      · exact ⟨[], by simp [hsucc, hq, hsim]⟩
      · exact ⟨[], by simp [hsucc, hq, hsim]⟩
    · exact ⟨[], by simp [hsucc, hq]⟩

/-! ## Claim C7 -/

/-- C7: when the cache lookup finds an entry for (race name, year) and the
HEAD check of its stored url succeeds, the resolver returns that cached
url marked `cached: true`, the world is unchanged, and the search
(`searchYouTubeHighlights`, hence any external search API call) is never
invoked. -/
theorem C7_cached_valid (env : Env) (raceName year : String) (e : CacheEntry)
    (hfind : env.cache.find? (cacheKeyMatches raceName year) = some e)
    (hurl : e.thumbnail_url ≠ "")
    (hok : env.headCheck e.thumbnail_url = HeadResult.ok) :
    getRaceHighlightThumbnail env raceName year
      = (cachedResultOf raceName e false, env, [Effect.headRequest e.thumbnail_url])
    ∧ (getRaceHighlightThumbnail env raceName year).1.success = true
    ∧ (getRaceHighlightThumbnail env raceName year).1.cached = some true
    ∧ (getRaceHighlightThumbnail env raceName year).1.thumbnailUrl = some e.thumbnail_url
    ∧ Effect.searchInvoked ∉ (getRaceHighlightThumbnail env raceName year).2.2 := by
  have hg : getRaceHighlightThumbnail env raceName year
      = (cachedResultOf raceName e false, env, [Effect.headRequest e.thumbnail_url]) := by
    unfold getRaceHighlightThumbnail
    rw [getCachedThumbnail_ok env raceName year e hfind hurl hok]
  refine ⟨hg, ?_, ?_, ?_, ?_⟩ <;> rw [hg] <;> simp [cachedResultOf]

/-- C7, witness. -/
theorem C7_cached_valid_witness :
    (envAllOk.cache.find? (cacheKeyMatches ("Monaco Grand Prix") ("2024")) = some monacoEntry
      ∧ monacoEntry.thumbnail_url ≠ ""
      ∧ envAllOk.headCheck monacoEntry.thumbnail_url = HeadResult.ok)
    ∧ (getRaceHighlightThumbnail envAllOk ("Monaco Grand Prix") ("2024")
        = (cachedResultOf ("Monaco Grand Prix") monacoEntry false, envAllOk,
            [Effect.headRequest monacoEntry.thumbnail_url])
      ∧ (getRaceHighlightThumbnail envAllOk ("Monaco Grand Prix") ("2024")).1.success = true
      ∧ (getRaceHighlightThumbnail envAllOk ("Monaco Grand Prix") ("2024")).1.cached = some true
      ∧ (getRaceHighlightThumbnail envAllOk ("Monaco Grand Prix") ("2024")).1.thumbnailUrl
          = some monacoEntry.thumbnail_url
      ∧ Effect.searchInvoked ∉ (getRaceHighlightThumbnail envAllOk ("Monaco Grand Prix") ("2024")).2.2) :=
  ⟨⟨by decide, by decide, by decide⟩,
    C7_cached_valid envAllOk ("Monaco Grand Prix") ("2024") monacoEntry
      (by decide) (by decide) (by decide)⟩

/-! ## Claim C8 -/

/-- C8: when the cache lookup finds an entry whose stored url fails its
existence check (a completed, non-ok response), the (race name, year)
entry is deleted from the cache, `getCachedThumbnail` yields null, and
the pipeline proceeds to invoke the external search. -/
theorem C8_invalid_cache (env : Env) (raceName year : String) (e : CacheEntry)
    (hfind : env.cache.find? (cacheKeyMatches raceName year) = some e)
    (hurl : e.thumbnail_url ≠ "")
    (hbad : env.headCheck e.thumbnail_url = HeadResult.notOk) :
    (getCachedThumbnail env raceName year).1 = none
    ∧ (getCachedThumbnail env raceName year).2.1.cache.find? (cacheKeyMatches raceName year) = none
    ∧ Effect.cacheDelete raceName year ∈ (getRaceHighlightThumbnail env raceName year).2.2
    ∧ Effect.searchInvoked ∈ (getRaceHighlightThumbnail env raceName year).2.2 := by
  have hg := getCachedThumbnail_notOk env raceName year e hfind hurl hbad
  have hmiss : (getCachedThumbnail env raceName year).1 = none := by rw [hg]
  obtain ⟨rest, htr⟩ := getRace_trace_structure env raceName year hmiss
  refine ⟨hmiss, ?_, ?_, ?_⟩
  · rw [hg]
    simp only [deleteCacheEntry]
    rw [List.find?_eq_none]
    intro x hx
    have hmem := List.of_mem_filter hx
    simp only [Bool.not_eq_true'] at hmem
    simp [hmem]
  · rw [htr, hg]
    simp
  · rw [htr]
    simp

/-- C8, witness. -/
theorem C8_invalid_cache_witness :
    (envAllNotOk.cache.find? (cacheKeyMatches ("Monaco Grand Prix") ("2024")) = some monacoEntry
      ∧ monacoEntry.thumbnail_url ≠ ""
      ∧ envAllNotOk.headCheck monacoEntry.thumbnail_url = HeadResult.notOk)
    ∧ ((getCachedThumbnail envAllNotOk ("Monaco Grand Prix") ("2024")).1 = none
      ∧ (getCachedThumbnail envAllNotOk ("Monaco Grand Prix") ("2024")).2.1.cache.find?
          (cacheKeyMatches ("Monaco Grand Prix") ("2024")) = none
      ∧ Effect.cacheDelete ("Monaco Grand Prix") ("2024")
          ∈ (getRaceHighlightThumbnail envAllNotOk ("Monaco Grand Prix") ("2024")).2.2
      ∧ Effect.searchInvoked
          ∈ (getRaceHighlightThumbnail envAllNotOk ("Monaco Grand Prix") ("2024")).2.2) :=
  ⟨⟨by decide, by decide, by decide⟩,
    C8_invalid_cache envAllNotOk ("Monaco Grand Prix") ("2024") monacoEntry
      (by decide) (by decide) (by decide)⟩

/-! ## Claim C9 -/

/-- C9: when the cache misses and the search fails with an error
mentioning the quota, the resolver first consults
`findSimilarCachedThumbnail` for the same year; if a row exists the
result is that row as a successful cached fallback
(`success, cached: true, fallback: true`), and only if none exists is the
search's failure result returned unchanged. -/
theorem C9_quota_fallback (env : Env) (raceName year : String)
    (hmiss : (getCachedThumbnail env raceName year).1 = none)
    (hfail : env.searchOutcome.success = false)
    (hquota : errorMentionsQuota env.searchOutcome = true) :
    (∀ sim, findSimilarCachedThumbnail (getCachedThumbnail env raceName year).2.1 year = some sim →
      (getRaceHighlightThumbnail env raceName year).1 = cachedResultOf raceName sim true
      ∧ (cachedResultOf raceName sim true).success = true
      ∧ (cachedResultOf raceName sim true).cached = some true
      ∧ (cachedResultOf raceName sim true).fallback = some true
      ∧ (cachedResultOf raceName sim true).thumbnailUrl = some sim.thumbnail_url)
    ∧ (findSimilarCachedThumbnail (getCachedThumbnail env raceName year).2.1 year = none →
      (getRaceHighlightThumbnail env raceName year).1 = env.searchOutcome) := by
  have hpres := (getCachedThumbnail_preserves env raceName year).2
  rcases hgc : getCachedThumbnail env raceName year with ⟨c, env1, tr1⟩
  rw [hgc] at hmiss hpres
  obtain rfl : c = none := hmiss
  have hout : env1.searchOutcome = env.searchOutcome := hpres
  constructor
  · intro sim hsim
    have hg : (getRaceHighlightThumbnail env raceName year).1
        = cachedResultOf raceName sim true := by
      unfold getRaceHighlightThumbnail
      rw [hgc]
      simp only [hout, hfail, Bool.false_eq_true, if_false, hquota, if_true, hsim]
    exact ⟨hg, rfl, rfl, rfl, rfl⟩
  · intro hsim
    unfold getRaceHighlightThumbnail
    rw [hgc]
    simp only [hout, hfail, Bool.false_eq_true, if_false, hquota, if_true, hsim]

/-- C9, witness: a cache with no Monaco 2024 row but a Spanish 2024 row;
the search fails with a quota error. -/
theorem C9_quota_fallback_witness :
    ((getCachedThumbnail envSimilarOnly ("Monaco Grand Prix") ("2024")).1 = none
      ∧ envSimilarOnly.searchOutcome.success = false
      ∧ errorMentionsQuota envSimilarOnly.searchOutcome = true)
    ∧ ((∀ sim, findSimilarCachedThumbnail
            (getCachedThumbnail envSimilarOnly ("Monaco Grand Prix") ("2024")).2.1 ("2024") = some sim →
        (getRaceHighlightThumbnail envSimilarOnly ("Monaco Grand Prix") ("2024")).1
            = cachedResultOf ("Monaco Grand Prix") sim true
        ∧ (cachedResultOf ("Monaco Grand Prix") sim true).success = true
        ∧ (cachedResultOf ("Monaco Grand Prix") sim true).cached = some true
        ∧ (cachedResultOf ("Monaco Grand Prix") sim true).fallback = some true
        ∧ (cachedResultOf ("Monaco Grand Prix") sim true).thumbnailUrl = some sim.thumbnail_url)
      ∧ (findSimilarCachedThumbnail
            (getCachedThumbnail envSimilarOnly ("Monaco Grand Prix") ("2024")).2.1 ("2024") = none →
        (getRaceHighlightThumbnail envSimilarOnly ("Monaco Grand Prix") ("2024")).1
            = envSimilarOnly.searchOutcome)) :=
  ⟨⟨by decide, by decide, by decide⟩,
    C9_quota_fallback envSimilarOnly ("Monaco Grand Prix") ("2024")
      (by decide) (by decide) (by decide)⟩

/-! ## Claim C10 -/

/-- C10: when the HEAD check of a cached thumbnail url throws (network
failure or the 3-second timeout), `getCachedThumbnail` returns null with
the world untouched — the entry is NOT deleted — and the pipeline
proceeds to the external search; in general a cache deletion is performed
only when the check completes with a non-ok status. -/
theorem C10_throw_keeps_entry (env : Env) (raceName year : String) (e : CacheEntry)
    (hfind : env.cache.find? (cacheKeyMatches raceName year) = some e)
    (hurl : e.thumbnail_url ≠ "")
    (hthrew : env.headCheck e.thumbnail_url = HeadResult.threw) :
    getCachedThumbnail env raceName year = (none, env, [Effect.headRequest e.thumbnail_url])
    ∧ Effect.searchInvoked ∈ (getRaceHighlightThumbnail env raceName year).2.2
    ∧ ∀ env2 n y, Effect.cacheDelete n y ∈ (getCachedThumbnail env2 n y).2.2 →
        ∃ e2, env2.cache.find? (cacheKeyMatches n y) = some e2
          ∧ e2.thumbnail_url ≠ ""
          ∧ env2.headCheck e2.thumbnail_url = HeadResult.notOk := by
  have hg := getCachedThumbnail_threw env raceName year e hfind hurl hthrew
  have hmiss : (getCachedThumbnail env raceName year).1 = none := by rw [hg]
  obtain ⟨rest, htr⟩ := getRace_trace_structure env raceName year hmiss
  refine ⟨hg, ?_, ?_⟩
  · rw [htr]
    simp
  · intro env2 n y h
    rcases hf : env2.cache.find? (cacheKeyMatches n y) with _ | e2
    · unfold getCachedThumbnail at h
      rw [hf] at h
      simp at h
    · by_cases hu : e2.thumbnail_url = ""
      · unfold getCachedThumbnail at h
        rw [hf] at h
        simp [hu] at h
      · cases hh : env2.headCheck e2.thumbnail_url
        · unfold getCachedThumbnail at h
          rw [hf] at h
          simp [beq_iff_eq, hu, hh] at h
        · exact ⟨e2, rfl, hu, hh⟩
        · unfold getCachedThumbnail at h
          rw [hf] at h
          simp [beq_iff_eq, hu, hh] at h

/-- C10, witness. -/
theorem C10_throw_keeps_entry_witness :
    (envAllThrew.cache.find? (cacheKeyMatches ("Monaco Grand Prix") ("2024")) = some monacoEntry
      ∧ monacoEntry.thumbnail_url ≠ ""
      ∧ envAllThrew.headCheck monacoEntry.thumbnail_url = HeadResult.threw)
    ∧ (getCachedThumbnail envAllThrew ("Monaco Grand Prix") ("2024")
        = (none, envAllThrew, [Effect.headRequest monacoEntry.thumbnail_url])
      ∧ Effect.searchInvoked
          ∈ (getRaceHighlightThumbnail envAllThrew ("Monaco Grand Prix") ("2024")).2.2
      ∧ ∀ env2 n y, Effect.cacheDelete n y ∈ (getCachedThumbnail env2 n y).2.2 →
          ∃ e2, env2.cache.find? (cacheKeyMatches n y) = some e2
            ∧ e2.thumbnail_url ≠ ""
            ∧ env2.headCheck e2.thumbnail_url = HeadResult.notOk) :=
  ⟨⟨by decide, by decide, by decide⟩,
    C10_throw_keeps_entry envAllThrew ("Monaco Grand Prix") ("2024") monacoEntry
      (by decide) (by decide) (by decide)⟩

/-! ## Review tree lemmas -/

/-- A `filterMap` whose function is the identity on every member. -/
theorem filterMap_id_of_self {α : Type} (f : α → Option α) :
    ∀ xs : List α, (∀ a ∈ xs, f a = some a) → xs.filterMap f = xs := by
  intro xs
  induction xs with
  | nil => intro _; rfl
  | cons a t ih =>
    intro h
    rw [List.filterMap_cons, h a (by simp)]
    rw [ih (fun b hb => h b (by simp [hb]))]

/-- A `filterMap` that is everywhere a total map on members. -/
theorem filterMap_eq_map_of {α β : Type} (f : α → Option β) (g : α → β) :
    ∀ xs : List α, (∀ a ∈ xs, f a = some (g a)) → xs.filterMap f = xs.map g := by
  intro xs
  induction xs with
  | nil => intro _; rfl
  | cons a t ih =>
    intro h
    rw [List.filterMap_cons, h a (by simp), List.map_cons]
    rw [ih (fun b hb => h b (by simp [hb]))]

theorem mem_flattenForest {x : Review} :
    ∀ {ns : List RNode}, x ∈ flattenForest ns ↔ ∃ n ∈ ns, x ∈ flattenNode n := by
  intro ns
  induction ns with
  | nil => simp [flattenForest]
  | cons n t ih =>
    rw [flattenForest, List.mem_append, ih]
    constructor
    · rintro (hx | ⟨m, hm, hxm⟩)
      · exact ⟨n, by simp, hx⟩
      · exact ⟨m, by simp [hm], hxm⟩
    · rintro ⟨m, hm, hxm⟩
      rcases List.mem_cons.mp hm with rfl | hm
      · exact Or.inl hxm
      · exact Or.inr ⟨m, hm, hxm⟩

theorem count_flattenForest (x : Review) :
    ∀ ns : List RNode,
      (flattenForest ns).count x = (ns.map fun n => (flattenNode n).count x).sum := by
  intro ns
  induction ns with
  | nil => rw [flattenForest]; simp
  | cons n t ih => rw [flattenForest, List.count_append, ih]; simp

/-- Indicator sums count the members satisfying the predicate. -/
theorem sum_map_ite_one (P : Review → Prop) [DecidablePred P] :
    ∀ xs : List Review,
      (xs.map fun a => if P a then 1 else 0).sum = xs.countP (fun a => decide (P a)) := by
  intro xs
  induction xs with
  | nil => simp
  | cons a t ih =>
    simp only [List.map_cons, List.sum_cons, List.countP_cons, ih]
    by_cases h : P a <;> simp [h, Nat.add_comm]

theorem l_nodup {l : List Review} (hn : idsNodup l) : l.Nodup :=
  List.Nodup.of_map Review.id hn

/-- Under distinct ids, the id filter of a member is a singleton. -/
theorem filter_id_eq_single (l : List Review) (hn : idsNodup l) :
    ∀ c ∈ l, l.filter (fun r => r.id == c.id) = [c] := by
  induction l with
  | nil => intro c hc; cases hc
  | cons a t ih =>
    rw [idsNodup, List.map_cons, List.nodup_cons] at hn
    intro c hc
    rcases List.mem_cons.mp hc with rfl | hct
    · rw [List.filter_cons]
      simp only [beq_self_eq_true, if_true]
      have hnone : t.filter (fun r => r.id == c.id) = [] := by
        rw [List.filter_eq_nil_iff]
        intro b hb
        simp only [beq_iff_eq]
        intro hEq
        exact hn.1 (hEq ▸ List.mem_map_of_mem Review.id hb)
      rw [hnone]
    · have hne : (a.id == c.id) = false := by
        simp only [beq_eq_false_iff_ne, ne_eq]
        intro hEq
        exact hn.1 (hEq ▸ List.mem_map_of_mem Review.id hct)
      rw [List.filter_cons, hne]
      simp only [Bool.false_eq_true, if_false]
      exact ih hn.2 c hct

/-- Under distinct ids, `reviewMap.get` returns the review itself. -/
theorem lookupNode_self (l : List Review) (hn : idsNodup l) {c : Review} (hc : c ∈ l) :
    lookupNode l c.id = some c := by
  rw [lookupNode, filter_id_eq_single l hn c hc]
  rfl

theorem lookupNode_mem {l : List Review} {i : Nat} {q : Review}
    (h : lookupNode l i = some q) : q ∈ l ∧ q.id = i := by
  rw [lookupNode] at h
  have hmem := List.mem_of_getLast?_eq_some h
  exact ⟨List.mem_of_mem_filter hmem, by simpa using List.of_mem_filter hmem⟩

theorem mem_childList {l : List Review} {r c : Review} :
    c ∈ childList l r ↔ c ∈ l ∧ c.parent_review_id = some r.id := by
  rw [childList, List.mem_filter]
  simp

theorem mem_topLevel {l : List Review} {r : Review} :
    r ∈ topLevelReviews l ↔ r ∈ l ∧ r.parent_review_id = none := by
  rw [topLevelReviews, List.mem_filter]
  simp [Option.isNone_iff_eq_none]

/-- Under distinct ids the recursive step of the graph unfolding is the
plain child recursion. -/
theorem buildNode_succ (l : List Review) (hn : idsNodup l) (fuel : Nat) (r : Review) :
    buildNode l (fuel + 1) r = .mk r ((childList l r).map (buildNode l fuel)) := by
  rw [buildNode]
  have heq : (l.filter (fun c => c.parent_review_id == some r.id)).filterMap
      (fun c => lookupNode l c.id) = childList l r := by
    apply filterMap_id_of_self
    intro c hc
    exact lookupNode_self l hn (List.mem_of_mem_filter hc)
  rw [heq]

/-- Under distinct ids the forest is one tree per top-level review. -/
theorem buildForest_eq (l : List Review) (hn : idsNodup l) :
    buildForest l = (topLevelReviews l).map (buildNode l l.length) := by
  rw [buildForest]
  apply filterMap_eq_map_of
  intro r hr
  rw [lookupNode_self l hn (mem_topLevel.mp hr).1]
  rfl

/-- Every review in the unfolding of a member's tree is in the list. -/
theorem flatten_buildNode_subset (l : List Review) :
    ∀ fuel r, r ∈ l → ∀ x ∈ flattenNode (buildNode l fuel r), x ∈ l := by
  intro fuel
  induction fuel with
  | zero =>
    intro r hr x hx
    rw [buildNode, flattenNode, flattenForest] at hx
    rcases List.mem_cons.mp hx with rfl | hx
    · exact hr
    · cases hx
  | succ k ih =>
    intro r hr x hx
    rw [buildNode, flattenNode] at hx
    rcases List.mem_cons.mp hx with rfl | hx
    · exact hr
    · rw [mem_flattenForest] at hx
      obtain ⟨n, hnmem, hxn⟩ := hx
      rw [List.mem_map] at hnmem
      obtain ⟨c, hcmem, rfl⟩ := hnmem
      rw [List.mem_filterMap] at hcmem
      obtain ⟨c0, _, hlk⟩ := hcmem
      exact ih c (lookupNode_mem hlk).1 x hxn

/-- Looking a parent up succeeds when parents are closed. -/
theorem lookup_of_closed (l : List Review) (hc : parentsClosed l) {x : Review}
    (hx : x ∈ l) {p : Nat} (hp : x.parent_review_id = some p) :
    ∃ q, lookupNode l p = some q := by
  obtain ⟨w, hw, hwid⟩ := hc x hx p hp
  have hmem : w ∈ l.filter (fun r => r.id == p) := List.mem_filter.mpr ⟨hw, by simp [hwid]⟩
  rw [lookupNode]
  rcases hgl : (l.filter (fun r => r.id == p)).getLast? with _ | q
  · rw [List.getLast?_eq_none_iff] at hgl
    rw [hgl] at hmem
    cases hmem
  · exact ⟨q, hgl⟩

theorem mem_ancChain_self (l : List Review) : ∀ fuel x, x ∈ ancChain l fuel x := by
  intro fuel x
  cases fuel <;> rw [ancChain] <;> simp

theorem ancChain_subset (l : List Review) :
    ∀ fuel x, x ∈ l → ∀ y ∈ ancChain l fuel x, y ∈ l := by
  intro fuel
  induction fuel with
  | zero =>
    intro x hx y hy
    rw [ancChain] at hy
    rcases List.mem_cons.mp hy with rfl | hy
    · exact hx
    · cases hy
  | succ k ih =>
    intro x hx y hy
    cases hpx : x.parent_review_id with
    | none =>
      simp only [ancChain, hpx] at hy
      rcases List.mem_cons.mp hy with rfl | hy
      · exact hx
      · cases hy
    | some p =>
      cases hlk : lookupNode l p with
      | none =>
        simp only [ancChain, hpx, hlk] at hy
        rcases List.mem_cons.mp hy with rfl | hy
        · exact hx
        · cases hy
      | some q =>
        simp only [ancChain, hpx, hlk] at hy
        rcases List.mem_cons.mp hy with rfl | hy
        · exact hx
        · exact ih q (lookupNode_mem hlk).1 y hy

/-- On ranked input, chain members other than the head have smaller rank. -/
theorem ancChain_rank_le (l : List Review) (rank : Review → Nat) (hrk : ranked l rank) :
    ∀ fuel x, x ∈ l → ∀ y ∈ ancChain l fuel x, y = x ∨ rank y < rank x := by
  intro fuel
  induction fuel with
  | zero =>
    intro x _ y hy
    rw [ancChain] at hy
    rcases List.mem_cons.mp hy with rfl | hy
    · exact Or.inl rfl
    · cases hy
  | succ k ih =>
    intro x hx y hy
    cases hpx : x.parent_review_id with
    | none =>
      simp only [ancChain, hpx] at hy
      rcases List.mem_cons.mp hy with rfl | hy
      · exact Or.inl rfl
      · cases hy
    | some p =>
      cases hlk : lookupNode l p with
      | none =>
        simp only [ancChain, hpx, hlk] at hy
        rcases List.mem_cons.mp hy with rfl | hy
        · exact Or.inl rfl
        · cases hy
      | some q =>
        simp only [ancChain, hpx, hlk] at hy
        rcases List.mem_cons.mp hy with rfl | hy
        · exact Or.inl rfl
        · have hq := lookupNode_mem hlk
          have hrq : rank q < rank x := hrk.2 x hx q hq.1 (by rw [hpx, hq.2])
          rcases ih q hq.1 y hy with rfl | hlt
          · exact Or.inr hrq
          · exact Or.inr (Nat.lt_trans hlt hrq)

/-- Key counting step: for `x ≠ r`, exactly one child of `r` lies on the
ancestor chain of `x` when `r` does, and none otherwise. -/
theorem key_countP (l : List Review) (rank : Review → Nat)
    (hn : idsNodup l) (hc : parentsClosed l) (hrk : ranked l rank) :
    ∀ fuel x, x ∈ l → rank x < fuel → ∀ r, r ∈ l → x ≠ r →
      (childList l r).countP (fun c => decide (c ∈ ancChain l fuel x))
        = if r ∈ ancChain l fuel x then 1 else 0 := by
  intro fuel
  induction fuel with
  | zero => intro x _ hrx; exact absurd hrx (Nat.not_lt_zero _)
  | succ k ih =>
    intro x hx hrx r hr hne
    cases hpx : x.parent_review_id with
    | none =>
      have hch : ancChain l (k + 1) x = [x] := by rw [ancChain, hpx]
      rw [hch]
      have hnotch : x ∉ childList l r := by
        rw [mem_childList]
        rintro ⟨-, hpar⟩
        rw [hpx] at hpar
        cases hpar
      rw [if_neg (by simp; intro hEq; exact hne hEq.symm)]
      rw [List.countP_eq_zero]
      intro c hcm
      simp only [List.mem_singleton, decide_eq_true_eq]
      intro hEq
      exact hnotch (hEq ▸ hcm)
    | some p =>
      obtain ⟨q, hlk⟩ := lookup_of_closed l hc hx hpx
      have hq := lookupNode_mem hlk
      have hch : ancChain l (k + 1) x = x :: ancChain l k q := by
        simp only [ancChain, hpx, hlk]
      have hrq : rank q < rank x := hrk.2 x hx q hq.1 (by rw [hpx, hq.2])
      rw [hch]
      by_cases hqr : q = r
      · subst hqr
        have hxchild : x ∈ childList l q := mem_childList.mpr ⟨hx, by rw [hpx, hq.2]⟩
        rw [if_pos (List.mem_cons_of_mem x (mem_ancChain_self l k q))]
        have hcongr : (childList l q).countP (fun c => decide (c ∈ x :: ancChain l k q))
            = (childList l q).countP (fun c => c == x) := by
          apply List.countP_congr
          intro c hcm
          have hcl := mem_childList.mp hcm
          have hqc : rank q < rank c := hrk.2 c hcl.1 q hq.1 hcl.2
          simp only [List.mem_cons, decide_eq_true_eq, beq_iff_eq]
          constructor
          · rintro (rfl | hmem)
            · rfl
            · rcases ancChain_rank_le l rank hrk k q hq.1 c hmem with rfl | hlt
              · omega
              · omega
          · intro hEq
            exact Or.inl hEq
        rw [hcongr]
        have : (childList l q).countP (fun c => c == x) = (childList l q).count x := rfl
        rw [this]
        exact List.count_eq_one_of_mem (List.Nodup.filter _ (l_nodup hn)) hxchild
      · have hcongr : (childList l r).countP (fun c => decide (c ∈ x :: ancChain l k q))
            = (childList l r).countP (fun c => decide (c ∈ ancChain l k q)) := by
          apply List.countP_congr
          intro c hcm
          have hcl := mem_childList.mp hcm
          simp only [List.mem_cons, decide_eq_true_eq]
          constructor
          · rintro (rfl | hmem)
            · exfalso
              rw [hpx] at hcl
              have hpr : p = r.id := by injection hcl.2
              have hself := lookupNode_self l hn hr
              rw [← hpr, hlk] at hself
              injection hself with hqr2
              exact hqr hqr2
            · exact hmem
          · intro hmem
            exact Or.inr hmem
        rw [hcongr, ih q hq.1 (by omega) r hr hqr]
        by_cases hrmem : r ∈ ancChain l k q
        · rw [if_pos hrmem, if_pos (List.mem_cons_of_mem _ hrmem)]
        · rw [if_neg hrmem, if_neg (by
            intro hmem
            rcases List.mem_cons.mp hmem with h1 | h2
            · exact hne h1.symm
            · exact hrmem h2)]

/-- Occurrence counting in a subtree: on closed, ranked, distinct-id input
with sufficient fuel, the review `x` occurs in the tree rooted at `r`
exactly when `r` lies on the ancestor chain of `x`, and then exactly once. -/
theorem count_flatten_buildNode (l : List Review) (rank : Review → Nat)
    (hn : idsNodup l) (hc : parentsClosed l) (hrk : ranked l rank) :
    ∀ fuel r, r ∈ l → l.length - rank r ≤ fuel → ∀ x, x ∈ l →
      (flattenNode (buildNode l fuel r)).count x
        = if r ∈ ancChain l l.length x then 1 else 0 := by
  intro fuel
  induction fuel with
  | zero =>
    intro r hr hfuel x hx
    have := hrk.1 r hr
    omega
  | succ k ih =>
    intro r hr hfuel x hx
    rw [buildNode_succ l hn, flattenNode, List.count_cons, count_flattenForest, List.map_map]
    have hmapcongr :
        (childList l r).map ((fun n => (flattenNode n).count x) ∘ buildNode l k)
          = (childList l r).map (fun c => if c ∈ ancChain l l.length x then 1 else 0) := by
      apply List.map_congr_left
      intro c hcm
      have hcl := mem_childList.mp hcm
      have hrankc : rank r < rank c := hrk.2 c hcl.1 r hr hcl.2
      have hb := hrk.1 r hr
      exact ih c hcl.1 (by omega) x hx
    rw [hmapcongr, sum_map_ite_one]
    by_cases hxr : x = r
    · subst hxr
      have h0 : (childList l x).countP (fun c => decide (c ∈ ancChain l l.length x)) = 0 := by
        rw [List.countP_eq_zero]
        intro c hcm
        simp only [decide_eq_true_eq]
        intro hmem
        have hcl := mem_childList.mp hcm
        have h1 : rank x < rank c := hrk.2 c hcl.1 x hx hcl.2
        rcases ancChain_rank_le l rank hrk l.length x hx c hmem with rfl | h2
        · omega
        · omega
      rw [h0, if_pos (mem_ancChain_self l l.length x)]
      simp
    · rw [key_countP l rank hn hc hrk l.length x hx (hrk.1 x hx) r hr hxr]
      have hbx : (r == x) = false := by
        simp only [beq_eq_false_iff_ne, ne_eq]
        exact fun hEq => hxr hEq.symm
      rw [hbx]
      simp

/-- Exactly one top-level review lies on the ancestor chain of a member. -/
theorem countP_top_ancChain (l : List Review) (rank : Review → Nat)
    (hn : idsNodup l) (hc : parentsClosed l) (hrk : ranked l rank) :
    ∀ fuel x, x ∈ l → rank x < fuel →
      (topLevelReviews l).countP (fun r => decide (r ∈ ancChain l fuel x)) = 1 := by
  intro fuel
  induction fuel with
  | zero => intro x _ hrx; exact absurd hrx (Nat.not_lt_zero _)
  | succ k ih =>
    intro x hx hrx
    cases hpx : x.parent_review_id with
    | none =>
      have hch : ancChain l (k + 1) x = [x] := by rw [ancChain, hpx]
      rw [hch]
      have hxtop : x ∈ topLevelReviews l := mem_topLevel.mpr ⟨hx, hpx⟩
      have hcongr : (topLevelReviews l).countP (fun r => decide (r ∈ ([x] : List Review)))
          = (topLevelReviews l).countP (fun r => r == x) := by
        apply List.countP_congr
        intro r _
        simp
      rw [hcongr]
      have hcount : (topLevelReviews l).countP (fun r => r == x)
          = (topLevelReviews l).count x := rfl
      rw [hcount]
      exact List.count_eq_one_of_mem (List.Nodup.filter _ (l_nodup hn)) hxtop
    | some p =>
      obtain ⟨q, hlk⟩ := lookup_of_closed l hc hx hpx
      have hq := lookupNode_mem hlk
      have hch : ancChain l (k + 1) x = x :: ancChain l k q := by
        simp only [ancChain, hpx, hlk]
      have hrq : rank q < rank x := hrk.2 x hx q hq.1 (by rw [hpx, hq.2])
      rw [hch]
      have hcongr : (topLevelReviews l).countP (fun r => decide (r ∈ x :: ancChain l k q))
          = (topLevelReviews l).countP (fun r => decide (r ∈ ancChain l k q)) := by
        apply List.countP_congr
        intro r hrtop
        have hrt := mem_topLevel.mp hrtop
        have hrx2 : r ≠ x := by
          intro hEq
          have hxn : x.parent_review_id = none := hEq ▸ hrt.2
          rw [hpx] at hxn
          cases hxn
        simp only [List.mem_cons, decide_eq_true_eq]
        constructor
        · rintro (hEq | hmem)
          · exact absurd hEq hrx2
          · exact hmem
        · intro hmem
          exact Or.inr hmem
      rw [hcongr]
      exact ih q hq.1 (by omega)

theorem flattenForest_eq_flatMap : ∀ ns : List RNode,
    flattenForest ns = ns.flatMap flattenNode := by
  intro ns
  induction ns with
  | nil => rfl
  | cons n t ih => rw [flattenForest, List.flatMap_cons, ih]

theorem flattenForest_perm_of_perm {ns ms : List RNode} (h : List.Perm ns ms) :
    List.Perm (flattenForest ns) (flattenForest ms) := by
  rw [flattenForest_eq_flatMap, flattenForest_eq_flatMap]
  exact h.flatMap_right flattenNode

mutual
/-- Sorting the replies permutes the reviews of a tree. -/
theorem flattenNode_sortNode_perm : (n : RNode) → List.Perm (flattenNode (sortNode n)) (flattenNode n)
  | .mk r rs => by
    rw [sortNode, flattenNode, flattenNode]
    exact List.Perm.cons r
      ((flattenForest_perm_of_perm (List.perm_insertionSort nodeLe (sortNodeList rs))).trans
        (flattenForest_sortNodeList_perm rs))
theorem flattenForest_sortNodeList_perm :
    (ns : List RNode) → List.Perm (flattenForest (sortNodeList ns)) (flattenForest ns)
  | [] => by
    rw [sortNodeList]
  | n :: ns => by
    rw [sortNodeList, flattenForest, flattenForest]
    exact (flattenNode_sortNode_perm n).append (flattenForest_sortNodeList_perm ns)
end

theorem repliesSortedForest_iff_all :
    ∀ ns : List RNode, repliesSortedForest ns ↔ ∀ n ∈ ns, repliesSortedNode n := by
  intro ns
  induction ns with
  | nil => simp [repliesSortedForest]
  | cons n t ih =>
    rw [repliesSortedForest]
    simp [List.forall_mem_cons, ih]

mutual
/-- Every tree produced by the third pass has sorted replies lists at
every depth. -/
theorem repliesSortedNode_sortNode : (n : RNode) → repliesSortedNode (sortNode n)
  | .mk r rs => by
    rw [sortNode, repliesSortedNode]
    constructor
    · exact List.sorted_insertionSort nodeLe (sortNodeList rs)
    · rw [repliesSortedForest_iff_all]
      intro m hm
      have hm2 : m ∈ sortNodeList rs :=
        (List.perm_insertionSort nodeLe (sortNodeList rs)).mem_iff.mp hm
      exact (repliesSortedForest_iff_all (sortNodeList rs)).mp
        (repliesSortedForest_sortNodeList rs) m hm2
theorem repliesSortedForest_sortNodeList :
    (ns : List RNode) → repliesSortedForest (sortNodeList ns)
  | [] => by
    rw [sortNodeList]
    trivial
  | n :: ns => by
    rw [sortNodeList, repliesSortedForest]
    exact ⟨repliesSortedNode_sortNode n, repliesSortedForest_sortNodeList ns⟩
end

theorem buildForest_flatten_subset (l : List Review) :
    ∀ x ∈ flattenForest (buildForest l), x ∈ l := by
  intro x hx
  rw [mem_flattenForest] at hx
  obtain ⟨n, hnmem, hxn⟩ := hx
  rw [buildForest, List.mem_filterMap] at hnmem
  obtain ⟨r, _, hlkm⟩ := hnmem
  rw [Option.map_eq_some'] at hlkm
  obtain ⟨q, hlk, rfl⟩ := hlkm
  exact flatten_buildNode_subset l l.length q (lookupNode_mem hlk).1 x hxn

/-- Occurrence counting for the full pipeline: on distinct-id, closed,
ranked input the produced forest holds every input review exactly once. -/
theorem count_flatten_organize (l : List Review) (rank : Review → Nat)
    (hn : idsNodup l) (hc : parentsClosed l) (hrk : ranked l rank) :
    ∀ x, (flattenForest (organizeReviews l)).count x = l.count x := by
  intro x
  rw [organizeReviews, (flattenForest_sortNodeList_perm (buildForest l)).count_eq x]
  by_cases hx : x ∈ l
  · rw [buildForest_eq l hn, count_flattenForest, List.map_map]
    have hcongr :
        (topLevelReviews l).map ((fun n => (flattenNode n).count x) ∘ buildNode l l.length)
          = (topLevelReviews l).map (fun r => if r ∈ ancChain l l.length x then 1 else 0) := by
      apply List.map_congr_left
      intro r hrtop
      exact count_flatten_buildNode l rank hn hc hrk l.length r (mem_topLevel.mp hrtop).1
        (by omega) x hx
    rw [hcongr, sum_map_ite_one,
      countP_top_ancChain l rank hn hc hrk l.length x hx (hrk.1 x hx),
      List.count_eq_one_of_mem (l_nodup hn) hx]
  · rw [List.count_eq_zero.mpr hx, List.count_eq_zero.mpr
      (fun hmem => hx (buildForest_flatten_subset l x hmem))]

/-- The forest is a permutation of the input list. -/
theorem organize_perm (l : List Review) (rank : Review → Nat)
    (hn : idsNodup l) (hc : parentsClosed l) (hrk : ranked l rank) :
    List.Perm (flattenForest (organizeReviews l)) l :=
  List.perm_iff_count.mpr (count_flatten_organize l rank hn hc hrk)

/-- An orphan is in no member's subtree (distinct-id input). -/
theorem orphan_not_in_subtree (l : List Review) (hn : idsNodup l) (x : Review) (p : Nat)
    (hp : x.parent_review_id = some p) (horph : ∀ q ∈ l, q.id ≠ p) :
    ∀ fuel r, r ∈ l → r ≠ x → x ∉ flattenNode (buildNode l fuel r) := by
  intro fuel
  induction fuel with
  | zero =>
    intro r hr hne hx
    rw [buildNode, flattenNode, flattenForest] at hx
    rcases List.mem_cons.mp hx with rfl | hx
    · exact hne rfl
    · cases hx
  | succ k ih =>
    intro r hr hne hx
    rw [buildNode_succ l hn, flattenNode] at hx
    rcases List.mem_cons.mp hx with rfl | hx
    · exact hne rfl
    · rw [mem_flattenForest] at hx
      obtain ⟨n, hnmem, hxn⟩ := hx
      rw [List.mem_map] at hnmem
      obtain ⟨c, hcm, rfl⟩ := hnmem
      have hcl := mem_childList.mp hcm
      have hcx : c ≠ x := by
        intro hEq
        rw [hEq, hp] at hcl
        have hpr : p = r.id := by
          injection hcl.2
        exact horph r hr hpr.symm
      exact ih c hcl.1 hcx hxn

/-! ## Claim C1 -/

/-- C1, counterexample.  A single review that is its own parent satisfies
the claim's hypothesis (its non-null parent reference matches an id in the
list) but produces an empty forest: node count 0 ≠ 1. -/
theorem C1_counterexample :
    parentsClosed [(⟨1, some 1, 0⟩ : Review)]
    ∧ totalCount (organizeReviews [(⟨1, some 1, 0⟩ : Review)])
        ≠ ([(⟨1, some 1, 0⟩ : Review)]).length := by
  decide

/-- C1, amended: for an input list with pairwise distinct ids, in which
every non-null parent reference matches the id of some review in the list
and the parent relation is acyclic (witnessed by a depth assignment,
bounded by the list length, that strictly decreases from each review to
its parent), `organizeReviews` returns a forest whose total node count
equals the input length, and every node's replies list is sorted by
non-decreasing creation time at every depth. -/
theorem C1_amended (l : List Review) (rank : Review → Nat)
    (hn : idsNodup l) (hc : parentsClosed l) (hrk : ranked l rank) :
    totalCount (organizeReviews l) = l.length
    ∧ repliesSortedForest (organizeReviews l) := by
  constructor
  · exact (organize_perm l rank hn hc hrk).length_eq
  · rw [organizeReviews]
    exact repliesSortedForest_sortNodeList (buildForest l)

/-- C1, witness for `C1_amended` on a three-review thread. -/
theorem C1_amended_witness :
    (idsNodup sampleReviews ∧ parentsClosed sampleReviews ∧ ranked sampleReviews sampleRank)
    ∧ (totalCount (organizeReviews sampleReviews) = sampleReviews.length
      ∧ repliesSortedForest (organizeReviews sampleReviews)) :=
  ⟨⟨by decide, by decide, by decide⟩,
    C1_amended sampleReviews sampleRank (by decide) (by decide) (by decide)⟩

/-! ## Claim C2 -/

/-- C2, counterexample.  With duplicate ids the claim fails: the orphan
reply (parent id 99 absent from the list) shares id 1 with a top-level
review, `reviewMap.get(1)` returns the orphan's node (last write wins),
and the top-level push renders the orphan at the top level. -/
theorem C2_counterexample :
    (⟨1, some 99, 7⟩ : Review).parent_review_id = some 99
    ∧ (∀ q ∈ [(⟨1, none, 0⟩ : Review), ⟨1, some 99, 7⟩], q.id ≠ 99)
    ∧ (⟨1, some 99, 7⟩ : Review)
        ∈ flattenForest (organizeReviews [(⟨1, none, 0⟩ : Review), ⟨1, some 99, 7⟩]) := by
  decide

/-- C2, amended: for an input list with pairwise distinct ids, a review
whose non-null parent reference matches no id in the list appears nowhere
in the forest returned by `organizeReviews` — neither top-level nor
nested at any depth. -/
theorem C2_amended (l : List Review) (x : Review) (p : Nat)
    (hn : idsNodup l) (_hx : x ∈ l) (hp : x.parent_review_id = some p)
    (horph : ∀ q ∈ l, q.id ≠ p) :
    x ∉ flattenForest (organizeReviews l) := by
  intro hxin
  have hx2 : x ∈ flattenForest (buildForest l) := by
    rw [organizeReviews] at hxin
    exact (flattenForest_sortNodeList_perm (buildForest l)).mem_iff.mp hxin
  rw [mem_flattenForest] at hx2
  obtain ⟨n, hnmem, hxn⟩ := hx2
  rw [buildForest, List.mem_filterMap] at hnmem
  obtain ⟨r, hrtop, hlkm⟩ := hnmem
  rw [Option.map_eq_some'] at hlkm
  obtain ⟨q, hlk, rfl⟩ := hlkm
  have hrt := mem_topLevel.mp hrtop
  rw [lookupNode_self l hn hrt.1] at hlk
  obtain rfl : r = q := by injection hlk
  have hqx : r ≠ x := by
    intro hEq
    have hxn2 : x.parent_review_id = none := hEq ▸ hrt.2
    rw [hp] at hxn2
    cases hxn2
  exact orphan_not_in_subtree l hn x p hp horph l.length r hrt.1 hqx hxn

/-- C2, witness for `C2_amended` on a distinct-id list with one orphan. -/
theorem C2_amended_witness :
    (idsNodup [(⟨1, none, 0⟩ : Review), ⟨2, some 99, 1⟩]
      ∧ (⟨2, some 99, 1⟩ : Review) ∈ [(⟨1, none, 0⟩ : Review), ⟨2, some 99, 1⟩]
      ∧ (⟨2, some 99, 1⟩ : Review).parent_review_id = some 99
      ∧ ∀ q ∈ [(⟨1, none, 0⟩ : Review), ⟨2, some 99, 1⟩], q.id ≠ 99)
    ∧ (⟨2, some 99, 1⟩ : Review)
        ∉ flattenForest (organizeReviews [(⟨1, none, 0⟩ : Review), ⟨2, some 99, 1⟩]) :=
  ⟨⟨by decide, by decide, by decide, by decide⟩,
    C2_amended [(⟨1, none, 0⟩ : Review), ⟨2, some 99, 1⟩] ⟨2, some 99, 1⟩ 99
      (by decide) (by decide) (by decide) (by decide)⟩
